import Mathlib

/-!
Shallow embedding of the Reddit scraper bot's content acquisition and
curation pipeline (src/ai_evaluator.py, src/auto_scraper_manager.py,
src/reddit_scraper.py).

External collaborators (the Gemini judgment service, the Twitter publisher,
the sqlite historical-record store, and the per-task fetch outcomes of
asyncio.gather) are modelled as oracle functions supplied as parameters.
Python floats are modelled as Rat; Python dicts holding comment data are
modelled as structures; a missing dict key is an Option field.
Each function that invokes the external judgment service also returns the
number of generate_content invocations it performed, so that call-count
properties are expressible.
-/

namespace RedditBot

/-- A comment dict as produced by the scraper and annotated by the pipeline
(`body`, `score` from reddit; `confidence`, `reason` added by
`filter_comments_with_ai`; `tweet_id` added on successful publish). -/
structure Comment where
  body : String
  score : Int := 0
  confidence : Option Rat := none
  reason : Option String := none
  tweetId : Option String := none
deriving Repr, DecidableEq, Inhabited

/-- A quality assessment as returned by `assess_comment_quality` /
`assess_batch_comment_quality`: result label ("yes"/"no"), reason text,
numeric confidence. -/
structure Assessment where
  result : String
  reason : String
  confidence : Rat
deriving Repr, DecidableEq, Inhabited

/-- One parsed JSON result object from the judgment service. `none` models a
missing key (Python `dict.get` default applies). A present `confidence` is
assumed numeric; a non-numeric value makes `float(...)` raise, which the code
routes to the same path as a call error, so it is folded into
`SingleResponse.err` / `BatchResponse.err`. -/
structure RawResult where
  result : Option String
  reason : Option String
  confidence : Option Rat
deriving Repr, DecidableEq, Inhabited

/-- The outcome of one single-item generate_content call: JSON parsed, JSON
parse failure (with the raw response text used for keyword extraction), or an
exception from the call itself. -/
inductive SingleResponse where
  | ok (raw : RawResult)
  | badJson (content : String)
  | err
deriving Repr, DecidableEq, Inhabited

/-- The outcome of one batch generate_content call. -/
inductive BatchResponse where
  | ok (results : List RawResult)
  | badJson
  | err
deriving Repr, DecidableEq, Inhabited

/-- Oracle for the judgment service: whether the Gemini client is configured,
and the response to each single-item request (keyed by comment body) and each
batch request (keyed by the submitted batch). -/
structure JudgeEnv where
  available : Bool
  singleResp : String → SingleResponse
  batchResp : List Comment → BatchResponse

/-- `needle in hay` for strings (Python `"yes" in content.lower()` uses
`toLower` on the haystack at the call site). -/
def containsSub (needle hay : String) : Bool :=
  1 < (hay.splitOn needle).length

/-- Formatting of one parsed JSON result object, mirroring
`result_data.get("result", "no")`, `.get("reason", "")`,
`float(.get("confidence", 0.0))`. -/
def formatAssessment (raw : RawResult) : Assessment :=
  { result := raw.result.getD "no"
    reason := raw.reason.getD ""
    confidence := raw.confidence.getD 0 }

/-- The JSON-decode-failure branch of `assess_comment_quality`: keyword
extraction from the raw text. -/
def textFallbackAssessment (content : String) : Assessment :=
  { result := if containsSub "yes" content.toLower then "yes" else "no"
    reason := content.take 100
    confidence := mkRat 1 2 }

/-- `AIEvaluator.assess_comment_quality`. Second component: number of
generate_content invocations (0 when the client is not configured, else 1). -/
def assess_comment_quality (available : Bool) (resp : SingleResponse) :
    Assessment × Nat :=
  if available then
    match resp with
    | SingleResponse.ok raw => (formatAssessment raw, 1)
    | SingleResponse.badJson content => (textFallbackAssessment content, 1)
    | SingleResponse.err =>
        ({ result := "yes", reason := "评估失败", confidence := mkRat 1 2 }, 1)
  else
    ({ result := "yes", reason := "未启用质量筛选", confidence := mkRat 1 2 }, 0)

/-- `AIEvaluator._fallback_to_individual_assessment`: one
`assess_comment_quality` call per comment, results in input order. Second
component: total generate_content invocations across the singles. -/
def fallbackIndividual (env : JudgeEnv) (comments : List Comment) :
    List Assessment × Nat :=
  (comments.map
      (fun c => (assess_comment_quality env.available (env.singleResp c.body)).1),
   (comments.map
      (fun c => (assess_comment_quality env.available (env.singleResp c.body)).2)).sum)

/-- `AIEvaluator.assess_batch_comment_quality`. A parsed result list whose
length differs from the input, a JSON parse failure, or a call exception all
discard the batch result and fall back to individual assessment. Second
component: generate_content invocations (the batch attempt plus any fallback
singles). -/
def assess_batch_comment_quality (env : JudgeEnv) (comments : List Comment) :
    List Assessment × Nat :=
  if env.available then
    match env.batchResp comments with
    | BatchResponse.ok results =>
        if results.length = comments.length then
          (results.map formatAssessment, 1)
        else
          let fb := fallbackIndividual env comments
          (fb.1, 1 + fb.2)
    | BatchResponse.badJson =>
        let fb := fallbackIndividual env comments
        (fb.1, 1 + fb.2)
    | BatchResponse.err =>
        let fb := fallbackIndividual env comments
        (fb.1, 1 + fb.2)
  else
    (comments.map
      (fun _ => { result := "yes", reason := "未启用质量筛选", confidence := mkRat 1 2 }),
     0)

/-- Fixed-size chunking of a list, fuelled (fuel = list length suffices for a
positive chunk size); mirrors `range(0, len(comments), batch_size)` slicing. -/
def chunksAux {α : Type} (n : Nat) : Nat → List α → List (List α)
  | 0, _ => []
  | _ + 1, [] => []
  | fuel + 1, x :: xs => (x :: xs).take n :: chunksAux n fuel ((x :: xs).drop n)

/-- `comments[i : i + batch_size]` slices for `i = 0, n, 2n, ...`. -/
def chunks {α : Type} (n : Nat) (l : List α) : List (List α) :=
  chunksAux n l.length l

/-- The keep-condition of `filter_comments_with_ai` line 189: keep a comment
iff its assessment has result "yes" and confidence strictly above 0.8, and
annotate the kept comment with the assessment's confidence and reason. -/
def keepGood (valid : List Comment) (results : List Assessment) : List Comment :=
  (valid.zip results).filterMap (fun p =>
    if p.2.result = "yes" ∧ mkRat 4 5 < p.2.confidence then
      some { p.1 with confidence := some p.2.confidence, reason := some p.2.reason }
    else none)

/-- Instrumented result of `filter_comments_with_ai`: the kept comments, the
`total_api_calls` counter the function returns, the actual number of
generate_content invocations, the valid batches actually submitted to the
judgment service, and the number of inter-batch `asyncio.sleep(0.5)` waits. -/
structure FilterTrace where
  filtered : List Comment
  apiCalls : Nat
  serviceCalls : Nat
  submitted : List (List Comment)
  sleeps : Nat
deriving Repr, DecidableEq, Inhabited

/-- The loop body of `filter_comments_with_ai`, one iteration per chunk;
`j` is the chunk index (start offset `j * batchSize`), `totalLen` is
`len(comments)`. A chunk whose valid (length ≥ 10) sublist is empty is
skipped entirely (`continue`), including its sleep. -/
def filterChunks (env : JudgeEnv) (batchSize totalLen : Nat) :
    Nat → List (List Comment) → FilterTrace
  | _, [] => { filtered := [], apiCalls := 0, serviceCalls := 0, submitted := [], sleeps := 0 }
  | j, chunk :: rest =>
    let valid := chunk.filter (fun c => 10 ≤ c.body.length)
    let tail := filterChunks env batchSize totalLen (j + 1) rest
    if valid.isEmpty then tail
    else
      let br := assess_batch_comment_quality env valid
      { filtered := keepGood valid br.1 ++ tail.filtered
        apiCalls := 1 + tail.apiCalls
        serviceCalls := br.2 + tail.serviceCalls
        submitted := valid :: tail.submitted
        sleeps := (if j * batchSize + batchSize < totalLen then 1 else 0) + tail.sleeps }

/-- `AIEvaluator.filter_comments_with_ai`. -/
def filter_comments_with_ai (env : JudgeEnv) (comments : List Comment)
    (batchSize : Nat) : FilterTrace :=
  filterChunks env batchSize comments.length 0 (chunks batchSize comments)

/-- `comment.get('confidence', 0)`, the sort key of
`_select_and_post_comment`. -/
def confOf (c : Comment) : Rat :=
  c.confidence.getD 0

/-- Stable insertion for descending-confidence order: an element is placed
before the first strictly-smaller key, after equal keys, matching Python's
stable `sorted(..., key=confidence, reverse=True)`. -/
def insertByConfDesc (c : Comment) : List Comment → List Comment
  | [] => [c]
  | x :: xs => if confOf x ≤ confOf c then c :: x :: xs else x :: insertByConfDesc c xs

/-- `sorted(filtered_comments, key=lambda x: x.get('confidence', 0),
reverse=True)` as a stable insertion sort. -/
def sortByConfDesc : List Comment → List Comment
  | [] => []
  | c :: cs => insertByConfDesc c (sortByConfDesc cs)

/-- `content[:277] + "..."` when the content exceeds 280 characters. -/
def truncate280 (s : String) : String :=
  if 280 < s.length then s.take 277 ++ "..." else s

/-- `AutoScraperManager._check_duplicate_content`: the sqlite query is an
oracle that either answers (ok) or raises (error); any raised storage error
is caught and the function returns False. -/
def check_duplicate_content (query : String → Except Unit Bool) (content : String) :
    Bool :=
  match query content with
  | Except.ok b => b
  | Except.error _ => false

/-- The publisher collaborator's reply to `post_text_tweet(content)`:
a success flag, and on success the tweet id and the final content. -/
structure PublishResult where
  success : Bool
  tweetId : String := ""
  content : String := ""
deriving Repr, DecidableEq, Inhabited

/-- `AutoScraperManager._auto_post_to_twitter` (the parts visible to
selection): re-truncate the body, call the publisher, and on success record
the tweet id and the published content back onto the comment. The wall-clock
`sent_at` field and the database save are outside the model. -/
def auto_post_to_twitter (pub : String → PublishResult) (c : Comment) :
    Bool × Comment :=
  let r := pub (truncate280 c.body)
  if r.success then
    (true, { c with tweetId := some r.tweetId, body := r.content })
  else
    (false, c)

/-- The possible returns of `_select_and_post_comment`:
`(True, comment)`, `(False, comment)` after a failed publish,
`("all_duplicate", None)`, and `(False, None)`. -/
inductive SelectOutcome where
  | posted (c : Comment)
  | postFailed (c : Comment)
  | allDuplicate
  | noComments
deriving Repr, DecidableEq, Inhabited

/-- The candidate loop of `_select_and_post_comment`: walk the sorted list;
a duplicate-detection hit advances to the next candidate; the first
non-duplicate is published once and the loop returns that publish's outcome.
Second component: number of publish calls made. -/
def tryCandidates (dupq : String → Except Unit Bool) (pub : String → PublishResult) :
    List Comment → Option (Bool × Comment) × Nat
  | [] => (none, 0)
  | c :: rest =>
    if check_duplicate_content dupq (truncate280 c.body) then
      tryCandidates dupq pub rest
    else
      (some (auto_post_to_twitter pub c), 1)

/-- `AutoScraperManager._select_and_post_comment`. Second component: number
of publish calls made. -/
def select_and_post_comment (dupq : String → Except Unit Bool)
    (pub : String → PublishResult) (filtered : List Comment) :
    SelectOutcome × Nat :=
  let sorted := sortByConfDesc filtered
  match tryCandidates dupq pub sorted with
  | (some (true, c), n) => (SelectOutcome.posted c, n)
  | (some (false, c), n) => (SelectOutcome.postFailed c, n)
  | (none, n) =>
      (if sorted.isEmpty then SelectOutcome.noComments else SelectOutcome.allDuplicate, n)

/-- A comment object as seen while iterating `submission.comments.list()`:
`body = none` models an object without a `body` attribute
(`hasattr(comment, 'body')` false). -/
structure RawComment where
  body : Option String
  score : Int := 0
deriving Repr, DecidableEq, Inhabited

/-- The keep-condition of `_scrape_post_comments_async`:
`hasattr(comment, 'body') and comment.body != '[deleted]'`. -/
def keepRawComment (c : RawComment) : Bool :=
  match c.body with
  | none => false
  | some b => b != "[deleted]"

/-- The comment loop of `AsyncRedditScraper._scrape_post_comments_async`:
break once `comment_count >= limit` (checked before each comment), keep a
comment iff `keepRawComment`, incrementing the count only on kept comments. -/
def scrape_post_comments (limit count : Nat) : List RawComment → List RawComment
  | [] => []
  | c :: rest =>
    if limit ≤ count then []
    else if keepRawComment c then c :: scrape_post_comments limit (count + 1) rest
    else scrape_post_comments limit count rest

/-- One subreddit config dict passed to
`scrape_multiple_subreddits_concurrent` (only `name` matters to the merge;
the fetch parameters are consumed by the abstracted fetch). -/
structure SubredditConfig where
  name : String
  limit : Nat := 50
  sortBy : String := "hot"
  commentsLimit : Nat := 20
  timeFilter : String := "all"
deriving Repr, DecidableEq, Inhabited

/-- `(posts_data, comments_data)` for one subreddit; posts are abstracted to
their ids. -/
abbrev Scraped := List String × List Comment

/-- What `asyncio.gather(..., return_exceptions=True)` yields at one input
position: the task's value, or the exception it raised, captured as a value
(never propagated to sibling tasks). `gather` returns results indexed by the
input position of each task, so completion order cannot influence the merge;
the oracle is therefore a function of the position alone. -/
inductive TaskResult (α : Type) where
  | ok (a : α)
  | exn
deriving Repr, DecidableEq, Inhabited

/-- The per-position handling in the merge loop of
`scrape_multiple_subreddits_concurrent`: an exception becomes `([], [])`. -/
def resolveTask (r : TaskResult Scraped) : Scraped :=
  match r with
  | TaskResult.exn => ([], [])
  | TaskResult.ok s => s

/-- Python dict assignment `d[k] = v` on an insertion-ordered dict
represented as an association list: replace in place, else append. -/
def dictInsert {α : Type} (d : List (String × α)) (k : String) (v : α) :
    List (String × α) :=
  match d with
  | [] => [(k, v)]
  | (k₂, v₂) :: rest => if k₂ = k then (k, v) :: rest else (k₂, v₂) :: dictInsert rest k v

/-- The merge loop of `scrape_multiple_subreddits_concurrent`: walk the
configs in input order, pairing position `i` with `results[i]`. -/
def mergeScraped (outcomes : Nat → TaskResult Scraped) :
    Nat → List SubredditConfig → List (String × Scraped) → List (String × Scraped)
  | _, [], acc => acc
  | i, cfg :: rest, acc =>
      mergeScraped outcomes (i + 1) rest (dictInsert acc cfg.name (resolveTask (outcomes i)))

/-- `AsyncRedditScraper.scrape_multiple_subreddits_concurrent`, with the
per-task fetch outcomes abstracted as an oracle indexed by task position. -/
def scrape_multiple_subreddits_concurrent (configs : List SubredditConfig)
    (outcomes : Nat → TaskResult Scraped) : List (String × Scraped) :=
  mergeScraped outcomes 0 configs []

/-- The explicit input-order form the merge is proved equal to: position `i`
contributes `(configs[i].name, resolveTask (outcomes i))`. -/
def expectedMerge (outcomes : Nat → TaskResult Scraped) :
    Nat → List SubredditConfig → List (String × Scraped)
  | _, [] => []
  | i, cfg :: rest => (cfg.name, resolveTask (outcomes i)) :: expectedMerge outcomes (i + 1) rest

/-- The comment `c` carries the confidence of an assessment that the
judgment service actually returned for one of this run's submitted batches,
with label "yes" and confidence strictly above 0.8 — the eligibility
condition of `filter_comments_with_ai` line 189, tied to the run's own
evaluator output rather than to an arbitrary assessment record. -/
def ChosenFromRunAssessment (env : JudgeEnv) (comments : List Comment)
    (batchSize : Nat) (c : Comment) : Prop :=
  ∃ (valid : List Comment) (a : Assessment),
    valid ∈ (filter_comments_with_ai env comments batchSize).submitted
    ∧ a ∈ (assess_batch_comment_quality env valid).1
    ∧ a.result = "yes" ∧ mkRat 4 5 < a.confidence
    ∧ c.confidence = some a.confidence

/-- Whether `assess_batch_comment_quality` discards the batch result and
falls back to individual assessment for this batch (given a configured
client): parse failure, call error, or a result-count mismatch. -/
def fallbackTriggered (env : JudgeEnv) (b : List Comment) : Bool :=
  match env.batchResp b with
  | BatchResponse.ok rs => rs.length != b.length
  | BatchResponse.badJson => true
  | BatchResponse.err => true

/-- A well-behaved judgment-service oracle: every response parses and has the
right shape, with label "yes", reason "r" and confidence 0.9. -/
def envAllGood : JudgeEnv :=
  { available := true
    singleResp := fun _ => SingleResponse.ok ⟨some "yes", some "r", some (mkRat 9 10)⟩
    batchResp := fun b =>
      BatchResponse.ok (b.map (fun _ => ⟨some "yes", some "r", some (mkRat 9 10)⟩)) }

/-- An oracle whose batch responses never parse, while single responses are
well-formed. -/
def envBatchBadJson : JudgeEnv :=
  { available := true
    singleResp := fun _ => SingleResponse.ok ⟨some "yes", some "r", some (mkRat 9 10)⟩
    batchResp := fun _ => BatchResponse.badJson }

/-- An oracle whose batch responses parse but always carry an empty result
list (a count mismatch for any non-empty batch). -/
def envMismatch : JudgeEnv :=
  { available := true
    singleResp := fun _ => SingleResponse.ok ⟨some "yes", some "r", some (mkRat 9 10)⟩
    batchResp := fun _ => BatchResponse.ok [] }

/-- An oracle whose batch responses report the out-of-range confidence 1.5. -/
def envConfBig : JudgeEnv :=
  { available := true
    singleResp := fun _ => SingleResponse.ok ⟨some "yes", some "r", some (mkRat 3 2)⟩
    batchResp := fun b =>
      BatchResponse.ok (b.map (fun _ => ⟨some "yes", some "r", some (mkRat 3 2)⟩)) }

/-- A 4-character comment (below the minimum length 10). -/
def cShort : Comment := { body := "tiny" }

/-- A 13-character comment. -/
def cLong1 : Comment := { body := "abcdefghijklm" }

/-- Another 13-character comment. -/
def cLong2 : Comment := { body := "nopqrstuvwxyz" }

/-- A scraped comment object whose `body` attribute is the empty string. -/
def cEmptyBody : RawComment := { body := some "" }

/-- A scraped comment object with a normal body. -/
def cHi : RawComment := { body := some "hi" }

/-- A subreddit config named "aaa". -/
def cfgA : SubredditConfig := { name := "aaa" }

/-- A subreddit config named "bbb". -/
def cfgB : SubredditConfig := { name := "bbb" }

/-- Task outcomes where the task at position 0 raises and every other task
returns one post and one comment. -/
def outcomesW : Nat → TaskResult Scraped :=
  fun i => if i = 0 then TaskResult.exn else TaskResult.ok (["p1"], [cLong1])

/-- A historical-record store that never has a match. -/
def dupNever : String → Except Unit Bool := fun _ => Except.ok false

/-- A historical-record store in which every query matches. -/
def dupAlways : String → Except Unit Bool := fun _ => Except.ok true

/-- A historical-record store whose every query raises a storage error. -/
def dupErr : String → Except Unit Bool := fun _ => Except.error ()

/-- A publisher that always succeeds, echoing the content with tweet id
"t1". -/
def pubOK : String → PublishResult := fun s => ⟨true, "t1", s⟩

/-- A publisher that always fails. -/
def pubFail : String → PublishResult := fun _ => ⟨false, "", ""⟩

/-- The scored entry that `filter_comments_with_ai` produces from `cLong1`
under the confidence-0.9 oracle. -/
def cScored910 : Comment :=
  { body := "abcdefghijklm", confidence := some (mkRat 9 10), reason := some "r" }

/-- `cScored910` after a successful publish through `pubOK` (the body is
unchanged by truncation since it is 13 characters). -/
def cPosted910 : Comment :=
  { cScored910 with tweetId := some "t1" }

/-- With a configured client, every single-item assessment performs exactly
one generate_content call, whatever the response. -/
lemma assess_single_calls (r : SingleResponse) :
    (assess_comment_quality true r).2 = 1 := by
  cases r <;> rfl

/-- Summing a per-element count of 1 over a list yields its length. -/
lemma sum_map_eq_length {α : Type} (l : List α) (f : α → Nat)
    (h : ∀ a ∈ l, f a = 1) : (l.map f).sum = l.length := by
  induction l with
  | nil => rfl
  | cons x xs ih =>
      simp only [List.map_cons, List.sum_cons, List.length_cons,
        h x (List.mem_cons_self x xs),
        ih (fun a ha => h a (List.mem_cons_of_mem x ha))]
      omega

/-- With a configured client, individual fallback evaluates each comment once
in input order and makes exactly one service call per comment. -/
lemma fallbackIndividual_spec (env : JudgeEnv) (cs : List Comment)
    (h : env.available = true) :
    fallbackIndividual env cs
      = (cs.map (fun c => (assess_comment_quality true (env.singleResp c.body)).1),
         cs.length) := by
  unfold fallbackIndividual
  rw [h]
  refine Prod.ext rfl ?_
  exact sum_map_eq_length cs _ (fun c _ => assess_single_calls (env.singleResp c.body))

/-- Claim C2: for every batch of N entries, if the parsed batch response has a
result list whose length differs from N, or parsing fails, the batch result is
discarded: the evaluator performs exactly N additional single-item evaluation
calls (total service calls 1 + N) and returns exactly N assessments, the i-th
being the single-item assessment of the i-th input comment. -/
theorem batch_mismatch_individual_fallback (env : JudgeEnv) (comments : List Comment)
    (hav : env.available = true)
    (htrig : (∃ rs, env.batchResp comments = BatchResponse.ok rs
                ∧ rs.length ≠ comments.length)
             ∨ env.batchResp comments = BatchResponse.badJson) :
    assess_batch_comment_quality env comments
      = (comments.map
          (fun c => (assess_comment_quality true (env.singleResp c.body)).1),
         1 + comments.length)
    ∧ (assess_batch_comment_quality env comments).1.length = comments.length := by
  have hmain : assess_batch_comment_quality env comments
      = (comments.map
          (fun c => (assess_comment_quality true (env.singleResp c.body)).1),
         1 + comments.length) := by
    unfold assess_batch_comment_quality
    rw [hav]
    rcases htrig with ⟨rs, hok, hne⟩ | hbad
    · rw [hok]
      simp only [if_neg hne, fallbackIndividual_spec env comments hav]
      exact if_pos trivial
    · rw [hbad]
      simp only [fallbackIndividual_spec env comments hav]
      exact if_pos trivial
  refine ⟨hmain, ?_⟩
  rw [hmain]
  exact List.length_map comments _

/-- Witness for C2 at a concrete mismatching batch response (2 comments, an
empty parsed result list). -/
theorem batch_mismatch_individual_fallback_witness :
    assess_batch_comment_quality envMismatch [cLong1, cLong2]
      = ([cLong1, cLong2].map
          (fun c => (assess_comment_quality true (envMismatch.singleResp c.body)).1),
         1 + ([cLong1, cLong2] : List Comment).length)
    ∧ (assess_batch_comment_quality envMismatch [cLong1, cLong2]).1.length
        = ([cLong1, cLong2] : List Comment).length :=
  batch_mismatch_individual_fallback envMismatch [cLong1, cLong2] rfl
    (Or.inl ⟨[], rfl, by decide⟩)

/-- With a configured client, one batch evaluation makes 1 service call, plus
one per comment when fallback is triggered. -/
lemma assess_batch_calls (env : JudgeEnv) (b : List Comment)
    (h : env.available = true) :
    (assess_batch_comment_quality env b).2
      = 1 + (if fallbackTriggered env b then b.length else 0) := by
  unfold assess_batch_comment_quality fallbackTriggered
  rw [h]
  cases hb : env.batchResp b with
  | ok rs =>
      by_cases hl : rs.length = b.length
      · simp [hl]
      · simp [hl, fallbackIndividual_spec env b h]
  | badJson => simp [fallbackIndividual_spec env b h]
  | err => simp [fallbackIndividual_spec env b h]

/-- Accumulated counter bookkeeping of the filtering loop: the returned
`total_api_calls` equals the number of submitted batches, and the actual
service-call total exceeds it by the sizes of the batches that fell back. -/
lemma filterChunks_counts (env : JudgeEnv) (bs tl : Nat)
    (h : env.available = true) :
    ∀ (j : Nat) (cs : List (List Comment)),
      (filterChunks env bs tl j cs).apiCalls
        = (filterChunks env bs tl j cs).submitted.length
      ∧ (filterChunks env bs tl j cs).serviceCalls
          = (filterChunks env bs tl j cs).apiCalls
            + ((filterChunks env bs tl j cs).submitted.map
                (fun b => if fallbackTriggered env b then b.length else 0)).sum := by
  intro j cs
  induction cs generalizing j with
  | nil => simp [filterChunks]
  | cons chunk rest ih =>
      rw [filterChunks]
      by_cases hv : (chunk.filter (fun c => 10 ≤ c.body.length)).isEmpty
      · simpa [hv] using ih (j + 1)
      · have hcalls := assess_batch_calls env
          (chunk.filter (fun c => 10 ≤ c.body.length)) h
        rcases ih (j + 1) with ⟨ih1, ih2⟩
        simp only [hv, if_false, Bool.false_eq_true, List.length_cons,
          List.map_cons, List.sum_cons]
        constructor
        · rw [ih1]
          omega
        · rw [hcalls, ih2, ih1]
          omega

/-- Counterexample to claim C8: with one 13-character comment and a batch
response that fails to parse, the pipeline makes 2 service calls (one batch
attempt plus one single-item fallback call) but returns an evaluation-call
count of 1: the returned count is not the total number of judgment-service
calls made. -/
theorem api_count_undercounts_fallback_cex :
    (filter_comments_with_ai envBatchBadJson [cLong1] 10).apiCalls = 1
    ∧ (filter_comments_with_ai envBatchBadJson [cLong1] 10).serviceCalls = 2
    ∧ (filter_comments_with_ai envBatchBadJson [cLong1] 10).apiCalls
        ≠ (filter_comments_with_ai envBatchBadJson [cLong1] 10).serviceCalls := by
  refine ⟨rfl, rfl, ?_⟩
  decide

/-- Amended claim C8: the evaluation-call count returned by the filtering
pipeline counts one call per batch actually submitted to the judgment
service; single-item calls performed during per-item fallback are not
included, so the actual number of service calls exceeds the returned count by
the sizes of the batches that fell back. -/
theorem api_count_equals_batch_invocations (env : JudgeEnv)
    (comments : List Comment) (batchSize : Nat)
    (hav : env.available = true) :
    (filter_comments_with_ai env comments batchSize).apiCalls
      = (filter_comments_with_ai env comments batchSize).submitted.length
    ∧ (filter_comments_with_ai env comments batchSize).serviceCalls
        = (filter_comments_with_ai env comments batchSize).apiCalls
          + ((filter_comments_with_ai env comments batchSize).submitted.map
              (fun b => if fallbackTriggered env b then b.length else 0)).sum :=
  filterChunks_counts env batchSize comments.length hav 0 (chunks batchSize comments)

/-- Witness for the amended C8 at a concrete parse-failing batch. -/
theorem api_count_equals_batch_invocations_witness :
    (filter_comments_with_ai envBatchBadJson [cLong1] 10).apiCalls
      = (filter_comments_with_ai envBatchBadJson [cLong1] 10).submitted.length
    ∧ (filter_comments_with_ai envBatchBadJson [cLong1] 10).serviceCalls
        = (filter_comments_with_ai envBatchBadJson [cLong1] 10).apiCalls
          + ((filter_comments_with_ai envBatchBadJson [cLong1] 10).submitted.map
              (fun b => if fallbackTriggered envBatchBadJson b then b.length else 0)).sum :=
  api_count_equals_batch_invocations envBatchBadJson [cLong1] 10 rfl

/-- Every chunk produced by `chunksAux` has at most `n` elements. -/
lemma mem_chunksAux_length {α : Type} (n : Nat) :
    ∀ (fuel : Nat) (l : List α) (b : List α), b ∈ chunksAux n fuel l → b.length ≤ n := by
  intro fuel
  induction fuel with
  | zero => intro l b hmem; simp [chunksAux] at hmem
  | succ f ih =>
      intro l b hmem
      cases l with
      | nil => simp [chunksAux] at hmem
      | cons x xs =>
          rw [chunksAux] at hmem
          rcases List.mem_cons.1 hmem with rfl | h2
          · exact List.length_take_le n (x :: xs)
          · exact ih _ _ h2

/-- Each submitted batch is the valid (length ≥ 10) sublist of some chunk and
is non-empty. -/
lemma mem_filterChunks_submitted (env : JudgeEnv) (bs tl : Nat) :
    ∀ (j : Nat) (cs : List (List Comment)) (b : List Comment),
      b ∈ (filterChunks env bs tl j cs).submitted →
      ∃ chunk ∈ cs, b = chunk.filter (fun c => 10 ≤ c.body.length) ∧ b ≠ [] := by
  intro j cs
  induction cs generalizing j with
  | nil => intro b hmem; simp [filterChunks] at hmem
  | cons chunk rest ih =>
      intro b hmem
      rw [filterChunks] at hmem
      by_cases hv : (chunk.filter (fun c => 10 ≤ c.body.length)).isEmpty
      · rw [if_pos hv] at hmem
        rcases ih (j + 1) b hmem with ⟨ch, hm, he⟩
        exact ⟨ch, List.mem_cons_of_mem chunk hm, he⟩
      · rw [if_neg hv] at hmem
        rcases List.mem_cons.1 hmem with rfl | h2
        · refine ⟨chunk, List.mem_cons_self chunk rest, rfl, ?_⟩
          intro hnil
          rw [hnil] at hv
          exact hv rfl
        · rcases ih (j + 1) b h2 with ⟨ch, hm, he⟩
          exact ⟨ch, List.mem_cons_of_mem chunk hm, he⟩

/-- Counterexample to claim C7: with comments [4 chars, 13 chars, 13 chars]
and batch size 2, two batches are submitted and the first (which is not the
last) has only 1 entry, not batch size 2 — the short-comment exclusion is
applied after chunking, inside each chunk, not before grouping. -/
theorem submitted_batch_not_full_cex :
    (filter_comments_with_ai envAllGood [cShort, cLong1, cLong2] 2).submitted.length = 2
    ∧ ((filter_comments_with_ai envAllGood [cShort, cLong1, cLong2] 2).submitted.headD []).length = 1
    ∧ ((filter_comments_with_ai envAllGood [cShort, cLong1, cLong2] 2).submitted.headD []).length ≠ 2 := by
  refine ⟨rfl, rfl, ?_⟩
  decide

/-- Amended claim C7: comments are first grouped into fixed-size chunks
(default 10) and the minimum-length filter (10 characters) is applied inside
each chunk; consequently a comment shorter than 10 characters is never
submitted to the judgment service, and every submitted batch is non-empty
with at most batch-size entries — but it can be smaller than the batch size
even when it is not the last. -/
theorem submitted_batches_short_excluded_bounded (env : JudgeEnv)
    (comments : List Comment) (batchSize : Nat) :
    ∀ b ∈ (filter_comments_with_ai env comments batchSize).submitted,
      b ≠ [] ∧ b.length ≤ batchSize ∧ ∀ c ∈ b, 10 ≤ c.body.length := by
  intro b hb
  rcases mem_filterChunks_submitted env batchSize comments.length 0
      (chunks batchSize comments) b hb with ⟨chunk, hck, hbeq, hne⟩
  refine ⟨hne, ?_, ?_⟩
  · calc b.length ≤ chunk.length := by
          rw [hbeq]; exact List.length_filter_le _ chunk
      _ ≤ batchSize := mem_chunksAux_length batchSize comments.length comments chunk hck
  · intro c hc
    rw [hbeq] at hc
    have := (List.mem_filter.1 hc).2
    exact of_decide_eq_true this

/-- Witness for the amended C7: the first submitted batch of the concrete
run, with its 13-character comment. -/
theorem submitted_batches_short_excluded_bounded_witness :
    ([cLong1] : List Comment) ≠ [] ∧ ([cLong1] : List Comment).length ≤ 2
    ∧ 10 ≤ cLong1.body.length := by
  have H := submitted_batches_short_excluded_bounded envAllGood
    [cShort, cLong1, cLong2] 2 [cLong1] (by decide)
  exact ⟨H.1, H.2.1, H.2.2 cLong1 (by decide)⟩

/-- Every comment kept by the eligibility filter owes its recorded confidence
to an assessment in the batch result with label "yes" and confidence above
0.8. -/
lemma mem_keepGood {c : Comment} {valid : List Comment} {results : List Assessment}
    (h : c ∈ keepGood valid results) :
    ∃ a ∈ results, a.result = "yes" ∧ mkRat 4 5 < a.confidence
      ∧ c.confidence = some a.confidence := by
  unfold keepGood at h
  rcases List.mem_filterMap.1 h with ⟨p, hp, hpc⟩
  obtain ⟨c₀, a⟩ := p
  have ha : a ∈ results := (List.of_mem_zip hp).2
  by_cases hcond : a.result = "yes" ∧ mkRat 4 5 < a.confidence
  · rw [if_pos hcond] at hpc
    cases hpc
    exact ⟨a, ha, hcond.1, hcond.2, rfl⟩
  · rw [if_neg hcond] at hpc
    cases hpc

/-- One-step unfolding of the filtering loop, with the lets expanded. -/
lemma filterChunks_cons (env : JudgeEnv) (bs tl j : Nat) (chunk : List Comment)
    (rest : List (List Comment)) :
    filterChunks env bs tl j (chunk :: rest)
      = if (chunk.filter (fun c => 10 ≤ c.body.length)).isEmpty then
          filterChunks env bs tl (j + 1) rest
        else
          { filtered := keepGood (chunk.filter (fun c => 10 ≤ c.body.length))
              (assess_batch_comment_quality env
                (chunk.filter (fun c => 10 ≤ c.body.length))).1
              ++ (filterChunks env bs tl (j + 1) rest).filtered
            apiCalls := 1 + (filterChunks env bs tl (j + 1) rest).apiCalls
            serviceCalls := (assess_batch_comment_quality env
                (chunk.filter (fun c => 10 ≤ c.body.length))).2
              + (filterChunks env bs tl (j + 1) rest).serviceCalls
            submitted := chunk.filter (fun c => 10 ≤ c.body.length)
              :: (filterChunks env bs tl (j + 1) rest).submitted
            sleeps := (if j * bs + bs < tl then 1 else 0)
              + (filterChunks env bs tl (j + 1) rest).sleeps } := rfl

/-- Every comment surviving the filtering loop owes its recorded confidence
to a "yes"-labelled, above-0.8 assessment that the evaluator actually
returned for one of the loop's submitted batches. -/
lemma mem_filterChunks_filtered (env : JudgeEnv) (bs tl : Nat) :
    ∀ (j : Nat) (cs : List (List Comment)) (c : Comment),
      c ∈ (filterChunks env bs tl j cs).filtered →
      ∃ (valid : List Comment) (a : Assessment),
        valid ∈ (filterChunks env bs tl j cs).submitted
        ∧ a ∈ (assess_batch_comment_quality env valid).1
        ∧ a.result = "yes" ∧ mkRat 4 5 < a.confidence
        ∧ c.confidence = some a.confidence := by
  intro j cs
  induction cs generalizing j with
  | nil => intro c hmem; simp [filterChunks] at hmem
  | cons chunk rest ih =>
      intro c hmem
      rw [filterChunks_cons] at hmem ⊢
      by_cases hv : (chunk.filter (fun c => 10 ≤ c.body.length)).isEmpty
      · rw [if_pos hv] at hmem ⊢
        exact ih (j + 1) c hmem
      · rw [if_neg hv] at hmem ⊢
        rcases List.mem_append.1 hmem with h1 | h2
        · rcases mem_keepGood h1 with ⟨a, ha, hres, hgt, hconf⟩
          exact ⟨chunk.filter (fun c => 10 ≤ c.body.length), a,
            List.mem_cons_self _ _, ha, hres, hgt, hconf⟩
        · rcases ih (j + 1) c h2 with ⟨valid, a, hsub, ha, hres, hgt, hconf⟩
          exact ⟨valid, a, List.mem_cons_of_mem _ hsub, ha, hres, hgt, hconf⟩

/-- A single-item assessment's confidence is in [0,1] whenever any parsed
numeric confidence in the response is (the defaults 0, and 0.5 on parse or
call failure, are in range). -/
lemma single_conf_range (resp : SingleResponse)
    (h : ∀ raw, resp = SingleResponse.ok raw →
         ∀ v, raw.confidence = some v → 0 ≤ v ∧ v ≤ 1) :
    0 ≤ (assess_comment_quality true resp).1.confidence
    ∧ (assess_comment_quality true resp).1.confidence ≤ 1 := by
  cases resp with
  | ok raw =>
      simp only [assess_comment_quality, formatAssessment, if_pos trivial]
      cases hc : raw.confidence with
      | none => norm_num
      | some v => simpa using h raw rfl v hc
  | badJson s =>
      simp only [assess_comment_quality, textFallbackAssessment, if_pos trivial]
      norm_num
  | err =>
      simp only [assess_comment_quality, if_pos trivial]
      norm_num

/-- Every assessment produced by a batch evaluation has confidence in [0,1]
whenever every numeric confidence the judgment service reports is. -/
lemma assess_batch_conf_range (env : JudgeEnv) (b : List Comment)
    (hb : ∀ bb rs, env.batchResp bb = BatchResponse.ok rs →
          ∀ r ∈ rs, ∀ v, r.confidence = some v → 0 ≤ v ∧ v ≤ 1)
    (hs : ∀ s raw, env.singleResp s = SingleResponse.ok raw →
          ∀ v, raw.confidence = some v → 0 ≤ v ∧ v ≤ 1) :
    ∀ a ∈ (assess_batch_comment_quality env b).1,
      0 ≤ a.confidence ∧ a.confidence ≤ 1 := by
  intro a ha
  have hfall : a ∈ (fallbackIndividual env b).1 → env.available = true →
      0 ≤ a.confidence ∧ a.confidence ≤ 1 := by
    intro hmem hav
    rw [fallbackIndividual_spec env b hav] at hmem
    rcases List.mem_map.1 hmem with ⟨c, _, rfl⟩
    exact single_conf_range (env.singleResp c.body) (hs c.body)
  unfold assess_batch_comment_quality at ha
  cases hav : env.available with
  | false =>
      rw [hav] at ha
      simp only [Bool.false_eq_true, if_false] at ha
      rcases List.mem_map.1 ha with ⟨c, _, rfl⟩
      norm_num
  | true =>
      rw [hav] at ha
      simp only [if_pos trivial] at ha
      cases hbr : env.batchResp b with
      | ok rs =>
          rw [hbr] at ha
          dsimp only at ha
          by_cases hl : rs.length = b.length
          · rw [if_pos hl] at ha
            rcases List.mem_map.1 ha with ⟨r, hr, rfl⟩
            simp only [formatAssessment]
            cases hrc : r.confidence with
            | none => norm_num
            | some v => simpa using hb b rs hbr r hr v hrc
          · rw [if_neg hl] at ha
            exact hfall ha hav
      | badJson =>
          rw [hbr] at ha
          dsimp only at ha
          exact hfall ha hav
      | err =>
          rw [hbr] at ha
          dsimp only at ha
          exact hfall ha hav

/-- Counterexample to claim C6: if the batch response reports confidence 1.5,
the scored entry propagated downstream carries confidence 1.5 — an
out-of-range value is neither clamped nor rejected. -/
theorem confidence_out_of_range_propagates :
    (filter_comments_with_ai envConfBig [cLong1] 10).filtered
      = [{ body := "abcdefghijklm", score := 0, confidence := some (mkRat 3 2),
           reason := some "r", tweetId := none }]
    ∧ (1 : Rat) < mkRat 3 2 := by
  constructor
  · decide
  · norm_num

/-- Amended claim C6: the evaluator copies the numeric confidence from the
judgment-service response into the scored entry unmodified (absence defaults
to 0.0, parse/call failure to 0.5); the scored entries' confidences lie in
[0,1] provided every numeric confidence the service reports lies in [0,1] —
out-of-range service values are propagated uninterpreted, not clamped. -/
theorem confidence_in_range_when_service_in_range (env : JudgeEnv)
    (comments : List Comment) (batchSize : Nat)
    (hb : ∀ bb rs, env.batchResp bb = BatchResponse.ok rs →
          ∀ r ∈ rs, ∀ v, r.confidence = some v → 0 ≤ v ∧ v ≤ 1)
    (hs : ∀ s raw, env.singleResp s = SingleResponse.ok raw →
          ∀ v, raw.confidence = some v → 0 ≤ v ∧ v ≤ 1) :
    ∀ c ∈ (filter_comments_with_ai env comments batchSize).filtered,
      c.confidence ≠ none ∧ 0 ≤ confOf c ∧ confOf c ≤ 1 := by
  intro c hc
  rcases mem_filterChunks_filtered env batchSize comments.length 0
      (chunks batchSize comments) c hc with ⟨valid, a, _, hamem, _, _, hconf⟩
  have hr := assess_batch_conf_range env valid hb hs a hamem
  refine ⟨by rw [hconf]; exact Option.some_ne_none _, ?_, ?_⟩
  · rw [confOf, hconf]
    exact hr.1
  · rw [confOf, hconf]
    exact hr.2

/-- Witness for the amended C6: a concrete in-range oracle (confidence 0.9)
yields a scored entry with confidence in [0,1]. -/
theorem confidence_in_range_when_service_in_range_witness :
    cScored910.confidence ≠ none ∧ 0 ≤ confOf cScored910 ∧ confOf cScored910 ≤ 1 := by
  refine confidence_in_range_when_service_in_range envAllGood [cLong1] 10 ?_ ?_ _ ?_
  · intro bb rs hrs r hr v hv
    injection hrs with hrs
    subst hrs
    rcases List.mem_map.1 hr with ⟨x, _, rfl⟩
    simp only [Option.some.injEq] at hv
    subst hv
    norm_num
  · intro s raw hraw v hv
    injection hraw with hraw
    subst hraw
    simp only [Option.some.injEq] at hv
    subst hv
    norm_num
  · decide

/-- Stable descending insertion preserves membership. -/
lemma mem_insertByConfDesc {c x : Comment} {l : List Comment} :
    c ∈ insertByConfDesc x l ↔ c = x ∨ c ∈ l := by
  induction l with
  | nil => simp [insertByConfDesc]
  | cons y ys ih =>
      rw [insertByConfDesc]
      by_cases h : confOf y ≤ confOf x
      · simp [h]
      · simp only [h, if_false, List.mem_cons, ih]
        tauto

/-- The confidence sort preserves membership. -/
lemma mem_sortByConfDesc {c : Comment} {l : List Comment} :
    c ∈ sortByConfDesc l ↔ c ∈ l := by
  induction l with
  | nil => simp [sortByConfDesc]
  | cons x xs ih =>
      rw [sortByConfDesc, mem_insertByConfDesc]
      simp [ih]

/-- Insertion adds exactly one element. -/
lemma length_insertByConfDesc (x : Comment) (l : List Comment) :
    (insertByConfDesc x l).length = l.length + 1 := by
  induction l with
  | nil => rfl
  | cons y ys ih =>
      rw [insertByConfDesc]
      by_cases h : confOf y ≤ confOf x
      · simp [h]
      · simp only [h, if_false, List.length_cons, ih]

/-- The confidence sort preserves length. -/
lemma length_sortByConfDesc (l : List Comment) :
    (sortByConfDesc l).length = l.length := by
  induction l with
  | nil => rfl
  | cons x xs ih =>
      rw [sortByConfDesc, length_insertByConfDesc, ih, List.length_cons]

/-- Insertion preserves descending order by confidence. -/
lemma pairwise_insertByConfDesc {x : Comment} {l : List Comment}
    (h : l.Pairwise (fun a b => confOf b ≤ confOf a)) :
    (insertByConfDesc x l).Pairwise (fun a b => confOf b ≤ confOf a) := by
  induction l with
  | nil => simp [insertByConfDesc]
  | cons y ys ih =>
      rw [List.pairwise_cons] at h
      rw [insertByConfDesc]
      by_cases hc : confOf y ≤ confOf x
      · rw [if_pos hc]
        refine List.Pairwise.cons ?_ (List.Pairwise.cons h.1 h.2)
        intro b hb
        rcases List.mem_cons.1 hb with rfl | hb2
        · exact hc
        · exact le_trans (h.1 b hb2) hc
      · rw [if_neg hc]
        refine List.Pairwise.cons ?_ (ih h.2)
        intro b hb
        rcases mem_insertByConfDesc.1 hb with rfl | hb2
        · exact le_of_lt (lt_of_not_le hc)
        · exact h.1 b hb2

/-- The confidence sort produces a descending list. -/
lemma pairwise_sortByConfDesc (l : List Comment) :
    (sortByConfDesc l).Pairwise (fun a b => confOf b ≤ confOf a) := by
  induction l with
  | nil => simp [sortByConfDesc]
  | cons x xs ih =>
      rw [sortByConfDesc]
      exact pairwise_insertByConfDesc ih

/-- The head of the sorted list has the maximal confidence of the input. -/
lemma sorted_head_max {l : List Comment} {c : Comment} {rest : List Comment}
    (hs : sortByConfDesc l = c :: rest) :
    ∀ x ∈ l, confOf x ≤ confOf c := by
  intro x hx
  have hx2 : x ∈ c :: rest := by rw [← hs]; exact mem_sortByConfDesc.2 hx
  rcases List.mem_cons.1 hx2 with rfl | hx3
  · exact le_refl _
  · have hp := pairwise_sortByConfDesc l
    rw [hs, List.pairwise_cons] at hp
    exact hp.1 x hx3

/-- Publishing never changes a comment's recorded confidence. -/
lemma auto_post_confidence (pub : String → PublishResult) (c : Comment) :
    ((auto_post_to_twitter pub c).2).confidence = c.confidence := by
  unfold auto_post_to_twitter
  dsimp only
  by_cases h : (pub (truncate280 c.body)).success
  · rw [if_pos h]
  · rw [if_neg h]

/-- If the candidate loop hands back a publish outcome, exactly one publish
call was made and the handed-back comment has the confidence of some input
candidate. -/
lemma tryCandidates_chosen {dupq : String → Except Unit Bool}
    {pub : String → PublishResult} {l : List Comment} {b : Bool} {c : Comment}
    {n : Nat} (h : tryCandidates dupq pub l = (some (b, c), n)) :
    n = 1 ∧ ∃ c₀ ∈ l, c.confidence = c₀.confidence := by
  induction l with
  | nil => simp [tryCandidates] at h
  | cons x xs ih =>
      rw [tryCandidates] at h
      by_cases hd : check_duplicate_content dupq (truncate280 x.body) = true
      · rw [if_pos hd] at h
        rcases ih h with ⟨hn, c₀, hm, hc⟩
        exact ⟨hn, c₀, List.mem_cons_of_mem x hm, hc⟩
      · rw [if_neg hd] at h
        rw [Prod.mk.injEq] at h
        obtain ⟨h1, h2⟩ := h
        injection h1 with h1
        have hc : c = (auto_post_to_twitter pub x).2 := by rw [h1]
        refine ⟨h2.symm, x, List.mem_cons_self x xs, ?_⟩
        rw [hc, auto_post_confidence]

/-- A `posted`/`postFailed` return of the selector comes from the candidate
loop handing back that comment. -/
lemma select_chosen_inv {dupq : String → Except Unit Bool}
    {pub : String → PublishResult} {filtered : List Comment} {c : Comment} {n : Nat}
    (h : select_and_post_comment dupq pub filtered = (SelectOutcome.posted c, n)
       ∨ select_and_post_comment dupq pub filtered = (SelectOutcome.postFailed c, n)) :
    ∃ b, tryCandidates dupq pub (sortByConfDesc filtered) = (some (b, c), n) := by
  unfold select_and_post_comment at h
  dsimp only at h
  rcases htc : tryCandidates dupq pub (sortByConfDesc filtered) with ⟨o, m⟩
  rw [htc] at h
  cases o with
  | none =>
      exfalso
      rcases h with h | h <;> by_cases he : (sortByConfDesc filtered).isEmpty <;>
        simp [he] at h
  | some bc =>
      obtain ⟨bb, cc⟩ := bc
      refine ⟨bb, ?_⟩
      cases bb <;> rcases h with h | h <;> simp_all

/-- Claim C4: in the candidate-selection loop, a duplicate-detection hit
advances iteration to the next candidate, while a publish failure on the
chosen (non-duplicate) candidate ends the selection with a failure outcome
after exactly one publish call, for every tail of later candidates — no later
candidate is attempted. -/
theorem duplicate_advances_publish_failure_stops
    (dupq : String → Except Unit Bool) (pub : String → PublishResult)
    (c : Comment) (rest : List Comment) :
    (check_duplicate_content dupq (truncate280 c.body) = true →
       tryCandidates dupq pub (c :: rest) = tryCandidates dupq pub rest)
    ∧ (check_duplicate_content dupq (truncate280 c.body) = false →
       (pub (truncate280 c.body)).success = false →
       tryCandidates dupq pub (c :: rest) = (some (false, c), 1)
       ∧ ∀ filtered : List Comment,
           sortByConfDesc filtered = c :: rest →
           select_and_post_comment dupq pub filtered
             = (SelectOutcome.postFailed c, 1)) := by
  constructor
  · intro hd
    rw [tryCandidates, if_pos hd]
  · intro hd hf
    have hauto : auto_post_to_twitter pub c = (false, c) := by
      unfold auto_post_to_twitter
      dsimp only
      rw [if_neg (by rw [hf]; exact Bool.false_ne_true)]
    have htc : tryCandidates dupq pub (c :: rest) = (some (false, c), 1) := by
      rw [tryCandidates, if_neg (by rw [hd]; exact Bool.false_ne_true), hauto]
    refine ⟨htc, ?_⟩
    intro filtered hsort
    unfold select_and_post_comment
    dsimp only
    rw [hsort, htc]

/-- Witness for C4: a duplicate head is skipped; a failing publish on a
non-duplicate head ends the selection with `postFailed` after one publish
call. -/
theorem duplicate_advances_publish_failure_stops_witness :
    tryCandidates dupAlways pubOK (cLong1 :: [cLong2])
      = tryCandidates dupAlways pubOK [cLong2]
    ∧ tryCandidates dupNever pubFail (cLong1 :: [cLong2]) = (some (false, cLong1), 1)
    ∧ select_and_post_comment dupNever pubFail [cLong1]
        = (SelectOutcome.postFailed cLong1, 1) := by
  have h2 := (duplicate_advances_publish_failure_stops dupNever pubFail cLong1 [cLong2]).2
    (by decide) (by decide)
  have h3 := (duplicate_advances_publish_failure_stops dupNever pubFail cLong1 []).2
    (by decide) (by decide)
  exact ⟨(duplicate_advances_publish_failure_stops dupAlways pubOK cLong1 [cLong2]).1
      (by decide),
    h2.1, h3.2 [cLong1] (by decide)⟩

/-- If every candidate is a duplicate, the loop exhausts the list without a
single publish call. -/
lemma tryCandidates_all_dup {dupq : String → Except Unit Bool}
    {pub : String → PublishResult} {l : List Comment}
    (h : ∀ c ∈ l, check_duplicate_content dupq (truncate280 c.body) = true) :
    tryCandidates dupq pub l = (none, 0) := by
  induction l with
  | nil => rfl
  | cons x xs ih =>
      rw [tryCandidates, if_pos (h x (List.mem_cons_self x xs))]
      exact ih (fun c hc => h c (List.mem_cons_of_mem x hc))

/-- Claim C5: when the eligible-candidate set is non-empty and every
candidate matches a historical record, the selection returns the distinct
outcome `allDuplicate` (not `noComments`) and makes no publish call at
all. -/
theorem all_duplicate_distinct_outcome (dupq : String → Except Unit Bool)
    (pub : String → PublishResult) (filtered : List Comment)
    (hne : filtered ≠ [])
    (hdup : ∀ c ∈ filtered,
        check_duplicate_content dupq (truncate280 c.body) = true) :
    select_and_post_comment dupq pub filtered = (SelectOutcome.allDuplicate, 0)
    ∧ SelectOutcome.allDuplicate ≠ SelectOutcome.noComments := by
  have hdup2 : ∀ c ∈ sortByConfDesc filtered,
      check_duplicate_content dupq (truncate280 c.body) = true :=
    fun c hc => hdup c (mem_sortByConfDesc.1 hc)
  have htc := @tryCandidates_all_dup dupq pub (sortByConfDesc filtered) hdup2
  have hse : (sortByConfDesc filtered).isEmpty = false := by
    cases hsf : sortByConfDesc filtered with
    | nil =>
        exfalso
        have hl := length_sortByConfDesc filtered
        rw [hsf] at hl
        exact hne (List.length_eq_zero.1 hl.symm)
    | cons a as => rfl
  constructor
  · unfold select_and_post_comment
    dsimp only
    rw [htc]
    simp [hse]
  · intro hcontra
    cases hcontra

/-- Witness for C5 with one candidate and an always-matching record store. -/
theorem all_duplicate_distinct_outcome_witness :
    select_and_post_comment dupAlways pubOK [cLong1] = (SelectOutcome.allDuplicate, 0)
    ∧ SelectOutcome.allDuplicate ≠ SelectOutcome.noComments :=
  all_duplicate_distinct_outcome dupAlways pubOK [cLong1] (by decide) (by decide)

/-- Claim C10: any storage error in the duplicate query is swallowed and the
check answers false, so with a failing historical-record store every
candidate is treated as non-duplicate and the selection proceeds to publish
the top-ranked (maximal-confidence) candidate with exactly one publish
call. -/
theorem dedup_fails_open_publishes_top (dupq : String → Except Unit Bool)
    (pub : String → PublishResult) (filtered : List Comment)
    (herr : ∀ s, dupq s = Except.error ())
    (hne : filtered ≠ []) :
    (∀ content, check_duplicate_content dupq content = false)
    ∧ ∃ c rest, sortByConfDesc filtered = c :: rest
        ∧ (∀ x ∈ filtered, confOf x ≤ confOf c)
        ∧ select_and_post_comment dupq pub filtered
            = (if (auto_post_to_twitter pub c).1 then
                 SelectOutcome.posted (auto_post_to_twitter pub c).2
               else SelectOutcome.postFailed (auto_post_to_twitter pub c).2, 1) := by
  have hchk : ∀ content, check_duplicate_content dupq content = false := by
    intro content
    unfold check_duplicate_content
    rw [herr content]
  refine ⟨hchk, ?_⟩
  cases hsf : sortByConfDesc filtered with
  | nil =>
      exfalso
      have hl := length_sortByConfDesc filtered
      rw [hsf] at hl
      exact hne (List.length_eq_zero.1 hl.symm)
  | cons c rest =>
      refine ⟨c, rest, rfl, sorted_head_max hsf, ?_⟩
      have htc : tryCandidates dupq pub (c :: rest)
          = (some (auto_post_to_twitter pub c), 1) := by
        rw [tryCandidates, if_neg (by rw [hchk]; exact Bool.false_ne_true)]
      unfold select_and_post_comment
      dsimp only
      rw [hsf, htc]
      rcases hap : auto_post_to_twitter pub c with ⟨ok, c₂⟩
      cases ok <;> simp

/-- Witness for C10: an erroring store with a succeeding publisher publishes
the single candidate. -/
theorem dedup_fails_open_publishes_top_witness :
    check_duplicate_content dupErr "abc" = false
    ∧ select_and_post_comment dupErr pubOK [cScored910]
        = (SelectOutcome.posted cPosted910, 1) := by
  have H := dedup_fails_open_publishes_top dupErr pubOK [cScored910]
    (fun s => rfl) (by decide)
  exact ⟨H.1 "abc", by decide⟩

/-- Claim C1: composing the eligibility filter with selection-and-publish,
any entry the selector hands to the publisher (whether the publish succeeds
or fails) carries the confidence of an assessment that the judgment service
actually returned for one of the run's submitted batches, whose label is
"yes" and whose confidence is strictly above 0.8 — no entry whose assessment
label is not "yes" or whose confidence is ≤ 0.8 is ever published or
returned as chosen. -/
theorem ai_filter_select_only_accepts (env : JudgeEnv) (comments : List Comment)
    (batchSize : Nat) (dupq : String → Except Unit Bool)
    (pub : String → PublishResult) (c : Comment) (n : Nat)
    (h : select_and_post_comment dupq pub
           (filter_comments_with_ai env comments batchSize).filtered
         = (SelectOutcome.posted c, n)
       ∨ select_and_post_comment dupq pub
           (filter_comments_with_ai env comments batchSize).filtered
         = (SelectOutcome.postFailed c, n)) :
    ChosenFromRunAssessment env comments batchSize c := by
  rcases select_chosen_inv h with ⟨b, htc⟩
  rcases tryCandidates_chosen htc with ⟨hn, c₀, hm, hc⟩
  have hm2 := mem_sortByConfDesc.1 hm
  rcases mem_filterChunks_filtered env batchSize comments.length 0
      (chunks batchSize comments) c₀ hm2 with ⟨valid, a, hsub, ha, hres, hgt, hconf⟩
  exact ⟨valid, a, hsub, ha, hres, hgt, by rw [hc, hconf]⟩

/-- Witness for C1: the concrete end-to-end run that publishes `cPosted910`
only does so because of a "yes" assessment above 0.8 in its own submitted
batch's evaluator output. -/
theorem ai_filter_select_only_accepts_witness :
    ChosenFromRunAssessment envAllGood [cLong1] 10 cPosted910 :=
  ai_filter_select_only_accepts envAllGood [cLong1] 10 dupNever pubOK
    cPosted910 1 (Or.inl (by decide))

/-- Assigning a fresh key to a Python dict appends it in insertion order. -/
lemma dictInsert_of_not_mem {α : Type} (d : List (String × α)) (k : String) (v : α)
    (h : k ∉ d.map Prod.fst) : dictInsert d k v = d ++ [(k, v)] := by
  induction d with
  | nil => rfl
  | cons p rest ih =>
      obtain ⟨k₂, v₂⟩ := p
      have h1 : ¬(k = k₂ ∨ k ∈ rest.map Prod.fst) := by simpa using h
      rw [dictInsert, if_neg (fun he => h1 (Or.inl he.symm))]
      rw [ih (fun hm => h1 (Or.inr hm))]
      rfl

/-- With pairwise-distinct config names and an accumulator whose keys are
disjoint from them, the merge loop appends its input-order results. -/
lemma mergeScraped_eq (outcomes : Nat → TaskResult Scraped) :
    ∀ (configs : List SubredditConfig) (i : Nat) (acc : List (String × Scraped)),
      (configs.map SubredditConfig.name).Nodup →
      (∀ nm ∈ configs.map SubredditConfig.name, nm ∉ acc.map Prod.fst) →
      mergeScraped outcomes i configs acc = acc ++ expectedMerge outcomes i configs := by
  intro configs
  induction configs with
  | nil =>
      intro i acc _ _
      simp [mergeScraped, expectedMerge]
  | cons cfg rest ih =>
      intro i acc hnd hdisj
      rw [List.map_cons, List.nodup_cons] at hnd
      rw [mergeScraped, expectedMerge]
      rw [dictInsert_of_not_mem acc cfg.name _
        (hdisj cfg.name (by rw [List.map_cons]; exact List.mem_cons_self _ _))]
      rw [ih (i + 1) (acc ++ [(cfg.name, resolveTask (outcomes i))]) hnd.2 ?_]
      · rw [List.append_assoc]
        rfl
      · intro nm hm
        rw [List.map_append, List.mem_append]
        rintro (hin | hin)
        · exact hdisj nm (by rw [List.map_cons]; exact List.mem_cons_of_mem _ hm) hin
        · simp only [List.map_cons, List.map_nil, List.mem_singleton] at hin
          rw [hin] at hm
          exact hnd.1 hm

/-- The expected merge has one entry per config. -/
lemma expectedMerge_length (outcomes : Nat → TaskResult Scraped) :
    ∀ (configs : List SubredditConfig) (i : Nat),
      (expectedMerge outcomes i configs).length = configs.length := by
  intro configs
  induction configs with
  | nil => intro i; rfl
  | cons cfg rest ih =>
      intro i
      rw [expectedMerge, List.length_cons, List.length_cons, ih (i + 1)]

/-- The k-th entry of the expected merge pairs the k-th config's name with
the k-th task's outcome. -/
lemma expectedMerge_get (outcomes : Nat → TaskResult Scraped) :
    ∀ (configs : List SubredditConfig) (i k : Nat),
      (expectedMerge outcomes i configs).get? k
        = (configs.get? k).map
            (fun cfg => (cfg.name, resolveTask (outcomes (i + k)))) := by
  intro configs
  induction configs with
  | nil => intro i k; simp [expectedMerge]
  | cons cfg rest ih =>
      intro i k
      cases k with
      | zero => simp [expectedMerge]
      | succ k₂ =>
          rw [expectedMerge]
          show (expectedMerge outcomes (i + 1) rest).get? k₂ = _
          rw [ih (i + 1) k₂]
          have harith : i + 1 + k₂ = i + (k₂ + 1) := by omega
          rw [harith]
          rfl

/-- Claim C3: for a list of source configs with distinct names, the
concurrent harvest merges results in input-spec order regardless of task
completion order (gather indexes results by task position); a task that
raised is recorded as the empty result `([], [])` via `resolveTask`, never
propagated, and every non-failing task's fetched data appears unchanged at
its own position. -/
theorem concurrent_scrape_merge_order (configs : List SubredditConfig)
    (outcomes : Nat → TaskResult Scraped)
    (hnd : (configs.map SubredditConfig.name).Nodup) :
    scrape_multiple_subreddits_concurrent configs outcomes
      = expectedMerge outcomes 0 configs
    ∧ (scrape_multiple_subreddits_concurrent configs outcomes).length
        = configs.length
    ∧ ∀ k, (scrape_multiple_subreddits_concurrent configs outcomes).get? k
        = (configs.get? k).map
            (fun cfg => (cfg.name, resolveTask (outcomes k))) := by
  have hmain : scrape_multiple_subreddits_concurrent configs outcomes
      = expectedMerge outcomes 0 configs := by
    unfold scrape_multiple_subreddits_concurrent
    rw [mergeScraped_eq outcomes configs 0 [] hnd (by intro nm _; simp)]
    rfl
  refine ⟨hmain, ?_, ?_⟩
  · rw [hmain]
    exact expectedMerge_length outcomes configs 0
  · intro k
    rw [hmain, expectedMerge_get outcomes configs 0 k]
    simp

/-- Witness for C3: two distinct sources of which the first raises. -/
theorem concurrent_scrape_merge_order_witness :
    scrape_multiple_subreddits_concurrent [cfgA, cfgB] outcomesW
      = expectedMerge outcomesW 0 [cfgA, cfgB]
    ∧ (scrape_multiple_subreddits_concurrent [cfgA, cfgB] outcomesW).length
        = ([cfgA, cfgB] : List SubredditConfig).length := by
  have H := concurrent_scrape_merge_order [cfgA, cfgB] outcomesW (by decide)
  exact ⟨H.1, H.2.1⟩

/-- The comment loop never keeps more than `limit - count` entries. -/
lemma scrape_post_comments_length :
    ∀ (cs : List RawComment) (limit count : Nat),
      (scrape_post_comments limit count cs).length ≤ limit - count := by
  intro cs
  induction cs with
  | nil => intro limit count; simp [scrape_post_comments]
  | cons c rest ih =>
      intro limit count
      rw [scrape_post_comments]
      by_cases hl : limit ≤ count
      · rw [if_pos hl]
        simp
      · rw [if_neg hl]
        by_cases hk : keepRawComment c = true
        · rw [if_pos hk]
          have := ih limit (count + 1)
          rw [List.length_cons]
          omega
        · rw [if_neg hk]
          have := ih limit count
          omega

/-- Every entry the comment loop keeps passed the keep-condition. -/
lemma mem_scrape_post_comments :
    ∀ (cs : List RawComment) (limit count : Nat) (c : RawComment),
      c ∈ scrape_post_comments limit count cs → keepRawComment c = true := by
  intro cs
  induction cs with
  | nil => intro limit count c hc; simp [scrape_post_comments] at hc
  | cons x rest ih =>
      intro limit count c hc
      rw [scrape_post_comments] at hc
      by_cases hl : limit ≤ count
      · rw [if_pos hl] at hc
        simp at hc
      · rw [if_neg hl] at hc
        by_cases hk : keepRawComment x = true
        · rw [if_pos hk] at hc
          rcases List.mem_cons.1 hc with rfl | hc2
          · exact hk
          · exact ih limit (count + 1) c hc2
        · rw [if_neg hk] at hc
          exact ih limit count c hc

/-- Counterexample to claim C9: a comment object whose `body` attribute is
the empty string passes the keep-condition (`hasattr` holds and `"" !=
'[deleted]'`) and is returned — empty bodies are not excluded. -/
theorem empty_body_retained_cex :
    scrape_post_comments 5 0 [cEmptyBody] = [cEmptyBody]
    ∧ cEmptyBody.body = some "" := by
  exact ⟨rfl, rfl⟩

/-- Amended claim C9: for every parent item, at most `limit` child entries
are returned, and each returned entry has a `body` attribute whose value is
not the deleted sentinel '[deleted]'; entries lacking the attribute or with
the sentinel are excluded, but a present-and-empty body is retained. -/
theorem scraped_comments_capped_no_deleted (limit : Nat) (cs : List RawComment) :
    (scrape_post_comments limit 0 cs).length ≤ limit
    ∧ ∀ c ∈ scrape_post_comments limit 0 cs,
        c.body ≠ none ∧ c.body ≠ some "[deleted]" := by
  constructor
  · have := scrape_post_comments_length cs limit 0
    omega
  · intro c hc
    have hk := mem_scrape_post_comments cs limit 0 c hc
    unfold keepRawComment at hk
    cases hb : c.body with
    | none =>
        rw [hb] at hk
        cases hk
    | some b =>
        rw [hb] at hk
        refine ⟨by simp, ?_⟩
        intro he
        have hbe : b = "[deleted]" := by injection he
        rw [hbe] at hk
        simp at hk

/-- Witness for the amended C9 at a concrete input. -/
theorem scraped_comments_capped_no_deleted_witness :
    (scrape_post_comments 1 0 [cHi]).length ≤ 1
    ∧ cHi.body ≠ none ∧ cHi.body ≠ some "[deleted]" := by
  have H := scraped_comments_capped_no_deleted 1 [cHi]
  exact ⟨H.1, H.2 cHi (by decide)⟩

end RedditBot
